import Mathlib

/-!
Verification of the scope-based access-control filtering engine
(`accesscontrol.Filter`), the core exercised by `TestFilter_Datasources`.
The engine translates a principal's permission set (action → scope strings)
into a parameterized SQL predicate restricting a query to authorized rows.
-/

namespace AccessControl

/-- Modelled from the spec: low-level colon splitter used by the Scope
Parser ("colon-delimited segments"); the Go implementation of this split is
not under src. Splits a character list at every `:`. -/
def splitSegs : List Char → List (List Char)
  | [] => [[]]
  | c :: cs =>
    if c = ':' then [] :: splitSegs cs
    else
      match splitSegs cs with
      | [] => [[c]]
      | t :: ts => (c :: t) :: ts

/-- Modelled from the spec: the structured form a scope string parses to —
the universal wildcard, a whole-prefix wildcard, a wildcard attribute/value,
or an exact `(prefix, attribute, value)` triplet (section 4.1). -/
inductive ParsedScope where
  | universal : ParsedScope
  | pfxWildcard (p : String) : ParsedScope
  | attrWildcard (p a : String) : ParsedScope
  | exact (p a v : String) : ParsedScope
deriving DecidableEq

/-- Modelled from the spec: the Scope Parser (section 4.1); the Go parser is
not under src. Accepts the single-segment universal `*`, a two-segment
`p:*`, and three non-empty segments (trailing `*` marking a wildcard
value); everything else is unparsable (`none`). -/
def parseScope (s : String) : Option ParsedScope :=
  match (splitSegs s.data).map String.mk with
  | [u] => if u = "*" then some .universal else none
  | [p, v] => if p ≠ "" ∧ v = "*" then some (.pfxWildcard p) else none
  | [p, a, v] =>
    if p = "" ∨ a = "" ∨ v = "" then none
    else if v = "*" then some (.attrWildcard p a)
    else some (.exact p a v)
  | _ => none

/-- Modelled from the spec: the Authorization Result sum type (section 3).
Either no row-level filtering is needed, or only a concrete de-duplicated
set of values is authorized. -/
inductive AuthResult where
  | unrestricted : AuthResult
  | restricted (s : Finset String) : AuthResult
deriving DecidableEq

/-- Modelled from the spec: scope evaluation loop of the Per-Action
Resolver (section 4.3, steps 2-5); the Go loop is not under src. Walks the
granted scopes: a universal or matching wildcard scope short-circuits to
`unrestricted`; a matching exact scope adds its value to the accumulating
set; unparsable or non-matching scopes are skipped. -/
def resolveScopes (pfx attr : String) : List String → Finset String → AuthResult
  | [], acc => .restricted acc
  | s :: rest, acc =>
    match parseScope s with
    | some .universal => .unrestricted
    | some (.pfxWildcard p) =>
      if p = pfx then .unrestricted else resolveScopes pfx attr rest acc
    | some (.attrWildcard p a) =>
      if p = pfx ∧ a = attr then .unrestricted else resolveScopes pfx attr rest acc
    | some (.exact p a v) =>
      if p = pfx ∧ a = attr then resolveScopes pfx attr rest (insert v acc)
      else resolveScopes pfx attr rest acc
    | none => resolveScopes pfx attr rest acc

/-- Modelled from the spec: the Per-Action Resolver (section 4.3, step 1);
the Go resolver is not under src. The permission set maps action names to
scope lists; an absent action resolves to `restricted ∅`. -/
def resolveAction (perms : List (String × List String)) (action pfx attr : String) :
    AuthResult :=
  match perms.lookup action with
  | none => .restricted ∅
  | some scopes => resolveScopes pfx attr scopes ∅

/-- Modelled from the spec: the Cross-Action Intersector's pairwise
combination (section 4.4); the Go fold is not under src. -/
def inter : AuthResult → AuthResult → AuthResult
  | .unrestricted, r => r
  | .restricted s, .unrestricted => .restricted s
  | .restricted s1, .restricted s2 => .restricted (s1 ∩ s2)

/-- Modelled from the spec: the fold of per-action results over the
required actions (section 4.4); `unrestricted` is the right identity of
`inter`, so the fold over a non-empty list agrees with the pairwise fold. -/
def resolveAll (perms : List (String × List String)) (pfx attr : String)
    (actions : List String) : AuthResult :=
  actions.foldr (fun a r => inter (resolveAction perms a pfx attr) r) .unrestricted

/-- Modelled from the spec: the Predicate returned to the caller — a SQL
boolean expression plus its ordered bound-argument list (section 3); field
names follow the test's `acFilter.Where` / `acFilter.Args`. -/
structure SQLFilter where
  Where : String
  Args : List String
deriving DecidableEq

/-- Modelled from the spec: SQL placeholder list `?,?,...,?` of a given
length, interpolated into the `IN (...)` clause. -/
def placeholders : Nat → String
  | 0 => ""
  | 1 => "?"
  | n + 2 => "?," ++ placeholders (n + 1)

/-- Byte-wise (code-point-wise) lexicographic comparison of character
lists, the order `sort.Strings` uses on Go strings. -/
def charsLe : List Char → List Char → Bool
  | [], _ => true
  | _ :: _, [] => false
  | a :: as, b :: bs =>
    if a.toNat < b.toNat then true
    else if b.toNat < a.toNat then false
    else charsLe as bs

/-- Lexicographic order on strings, by code points. -/
def strLe (a b : String) : Prop :=
  charsLe a.data b.data = true

instance : DecidableRel strLe :=
  fun a b => Bool.decEq (charsLe a.data b.data) true

theorem charsLe_total (a b : List Char) : charsLe a b = true ∨ charsLe b a = true := by
  induction a generalizing b with
  | nil => exact Or.inl rfl
  | cons x xs ih =>
    cases b with
    | nil => exact Or.inr rfl
    | cons y ys =>
      rcases Nat.lt_trichotomy x.toNat y.toNat with h | h | h
      · exact Or.inl (by simp [charsLe, h])
      · have h1 : ¬ x.toNat < y.toNat := by omega
        have h2 : ¬ y.toNat < x.toNat := by omega
        rcases ih ys with hh | hh
        · exact Or.inl (by simp [charsLe, h1, h2, hh])
        · exact Or.inr (by simp [charsLe, h1, h2, hh])
      · exact Or.inr (by simp [charsLe, h])

theorem charsLe_trans (a b c : List Char) (h1 : charsLe a b = true)
    (h2 : charsLe b c = true) : charsLe a c = true := by
  induction a generalizing b c with
  | nil => rfl
  | cons x xs ih =>
    cases b with
    | nil => simp [charsLe] at h1
    | cons y ys =>
      cases c with
      | nil => simp [charsLe] at h2
      | cons z zs =>
        by_cases hxy : x.toNat < y.toNat
        · by_cases hyz : y.toNat < z.toNat
          · have hxz : x.toNat < z.toNat := Nat.lt_trans hxy hyz
            simp [charsLe, hxz]
          · by_cases hzy : z.toNat < y.toNat
            · simp [charsLe, hyz, hzy] at h2
            · have hxz : x.toNat < z.toNat := by omega
              simp [charsLe, hxz]
        · by_cases hyx : y.toNat < x.toNat
          · simp [charsLe, hxy, hyx] at h1
          · simp [charsLe, hxy, hyx] at h1
            by_cases hyz : y.toNat < z.toNat
            · have hxz : x.toNat < z.toNat := by omega
              simp [charsLe, hxz]
            · by_cases hzy : z.toNat < y.toNat
              · simp [charsLe, hyz, hzy] at h2
              · simp [charsLe, hyz, hzy] at h2
                have hxz1 : ¬ x.toNat < z.toNat := by omega
                have hxz2 : ¬ z.toNat < x.toNat := by omega
                simp [charsLe, hxz1, hxz2, ih ys zs h1 h2]

theorem charsLe_antisymm (a b : List Char) (h1 : charsLe a b = true)
    (h2 : charsLe b a = true) : a = b := by
  induction a generalizing b with
  | nil =>
    cases b with
    | nil => rfl
    | cons y ys => simp [charsLe] at h2
  | cons x xs ih =>
    cases b with
    | nil => simp [charsLe] at h1
    | cons y ys =>
      by_cases hxy : x.toNat < y.toNat
      · have hyx : ¬ y.toNat < x.toNat := by omega
        simp [charsLe, hxy, hyx] at h2
      · by_cases hyx : y.toNat < x.toNat
        · simp [charsLe, hxy, hyx] at h1
        · simp [charsLe, hxy, hyx] at h1 h2
          have hn : x.toNat = y.toNat := by omega
          have hv : x = y := Char.eq_of_val_eq (UInt32.ext hn)
          rw [hv, ih ys h1 h2]

instance : IsTotal String strLe :=
  ⟨fun a b => charsLe_total a.data b.data⟩

instance : IsTrans String strLe :=
  ⟨fun a b c => charsLe_trans a.data b.data c.data⟩

instance : IsAntisymm String strLe :=
  ⟨fun a b h1 h2 => by
    cases a
    cases b
    exact congrArg String.mk (charsLe_antisymm _ _ h1 h2)⟩

/-- Modelled from the spec: "values sorted for reproducibility" (section
4.5) — the restricted set laid out as an ascending list. Implemented by an
insertion sort lifted to the underlying multiset so that it evaluates by
kernel reduction. -/
def sortValues (S : Finset String) : List String :=
  Quot.liftOn S.val (fun l => l.insertionSort strLe)
    (fun _ _ h =>
      List.eq_of_perm_of_sorted
        (((List.perm_insertionSort _ _).trans h).trans
          (List.perm_insertionSort _ _).symm)
        (List.sorted_insertionSort _ _) (List.sorted_insertionSort _ _))

/-- Modelled from the spec: the Predicate Builder (section 4.5); the Go
builder is not under src. `unrestricted` becomes a tautology with no
arguments, `restricted ∅` an always-false clause with no arguments, and a
non-empty `restricted S` a `col IN (...)` clause with one placeholder and
one bound argument per element of `S`, in sorted order. -/
def buildPredicate (col : String) : AuthResult → SQLFilter
  | .unrestricted => ⟨" 1 = 1", []⟩
  | .restricted S =>
    if S.card = 0 then ⟨" 1 = 0", []⟩
    else ⟨" " ++ col ++ " IN (" ++ placeholders S.card ++ ")", sortValues S⟩

/-- Modelled from the spec: the error taxonomy visible to the caller
(section 7) — `invalidColumn` for a column identifier not in the
accept-list, and an explicit error for the zero-actions contract
violation. -/
inductive FilterError where
  | invalidColumn : FilterError
  | emptyActions : FilterError
deriving DecidableEq

/-- Modelled from the spec: the public `Filter` operation (section 6); the
Go implementation is not under src, only its test. Validates the column
against the accept-list first (fail fast), rejects an empty action list
explicitly, then resolves, intersects and builds the predicate. -/
def Filter (acceptList : List String) (perms : List (String × List String))
    (sqlID pfx attr : String) (actions : List String) :
    Except FilterError SQLFilter :=
  if sqlID ∈ acceptList then
    if actions = [] then .error .emptyActions
    else .ok (buildPredicate sqlID (resolveAll perms pfx attr actions))
  else .error .invalidColumn

/-- Whether a scope string is a wildcard grant covering the whole target
prefix/attribute (spec section 4.3, step 3). -/
def isWildcardFor (pfx attr s : String) : Bool :=
  match parseScope s with
  | some .universal => true
  | some (.pfxWildcard p) => p = pfx
  | some (.attrWildcard p a) => p = pfx && a = attr
  | _ => false

/-- The exact value a scope string contributes for the target
prefix/attribute, if any (spec section 4.3, step 4). -/
def exactValue (pfx attr s : String) : Option String :=
  match parseScope s with
  | some (.exact p a v) => if p = pfx && a = attr then some v else none
  | _ => none

/-- The de-duplicated set of exact values a scope list contributes for the
target prefix/attribute. -/
def matchedValues (pfx attr : String) (l : List String) : Finset String :=
  (l.filterMap (exactValue pfx attr)).toFinset

/-- The ten data-source ids seeded by `TestFilter_Datasources` (rows
`ds:1` … `ds:10`, auto-incremented ids 1-10). -/
def dsSeededIds : List String :=
  ["1", "2", "3", "4", "5", "6", "7", "8", "9", "10"]

deriving instance DecidableEq for Except

/-! ### Basic lemmas about the splitter and parser -/

theorem splitSegs_cons_head (c : Char) (cs t : List Char) (ts : List (List Char))
    (hc : ¬ c = ':') (hs : splitSegs cs = t :: ts) :
    splitSegs (c :: cs) = (c :: t) :: ts := by
  simp [splitSegs, hc, hs]

theorem splitSegs_no_colon (l : List Char) (h : ':' ∉ l) : splitSegs l = [l] := by
  induction l with
  | nil => rfl
  | cons c cs ih =>
    simp only [List.mem_cons, not_or] at h
    have hc : ¬ c = ':' := fun hcc => h.1 hcc.symm
    rw [splitSegs_cons_head c cs cs [] hc (ih h.2)]

theorem splitSegs_append (a b : List Char) (h : ':' ∉ a) :
    splitSegs (a ++ ':' :: b) = a :: splitSegs b := by
  induction a with
  | nil => simp [splitSegs]
  | cons c cs ih =>
    simp only [List.mem_cons, not_or] at h
    have hc : ¬ c = ':' := fun hcc => h.1 hcc.symm
    rw [List.cons_append, splitSegs_cons_head c _ cs (splitSegs b) hc (ih h.2)]

theorem mk_data (s : String) : String.mk s.data = s := by
  cases s
  rfl

theorem sortValues_empty : sortValues ∅ = [] :=
  rfl

theorem append_colon_star (x : String) : x ++ ":*" = x ++ ":" ++ "*" := by
  apply String.ext
  simp [String.data_append, List.append_assoc]

theorem parseScope_universal : parseScope "*" = some .universal := by
  decide

theorem parseScope_pfxWild (p : String) (hp : ':' ∉ p.data) (hne : p ≠ "") :
    parseScope (p ++ ":*") = some (.pfxWildcard p) := by
  have hd : (p ++ ":*").data = p.data ++ ':' :: ['*'] := by
    rw [String.data_append]
  have h1 : splitSegs ['*'] = [['*']] := by decide
  have hstar : String.mk ['*'] = "*" := by decide
  unfold parseScope
  rw [hd, splitSegs_append _ _ hp, h1]
  simp only [List.map_cons, List.map_nil, mk_data, hstar]
  rw [if_pos ⟨hne, trivial⟩]

theorem data_three (p a v : String) :
    (p ++ ":" ++ a ++ ":" ++ v).data = p.data ++ ':' :: (a.data ++ ':' :: v.data) := by
  have hc : (":" : String).data = [':'] := rfl
  simp only [String.data_append, hc]
  simp [List.append_assoc]

theorem parseScope_three (p a v : String) (hp : ':' ∉ p.data) (ha : ':' ∉ a.data)
    (hv : ':' ∉ v.data) (hpne : p ≠ "") (hane : a ≠ "") (hvne : v ≠ "") :
    parseScope (p ++ ":" ++ a ++ ":" ++ v)
      = if v = "*" then some (.attrWildcard p a) else some (.exact p a v) := by
  unfold parseScope
  rw [data_three, splitSegs_append _ _ hp, splitSegs_append _ _ ha,
    splitSegs_no_colon _ hv]
  simp only [List.map_cons, List.map_nil, mk_data]
  rw [if_neg (by simp [hpne, hane, hvne])]

/-! ### Properties of the executable sort -/

theorem coe_sortValues (S : Finset String) :
    (sortValues S : Multiset String) = S.val := by
  rcases S with ⟨m, hm⟩
  induction m using Quotient.inductionOn with
  | h l => exact Multiset.coe_eq_coe.mpr (List.perm_insertionSort _ _)

theorem length_sortValues (S : Finset String) :
    (sortValues S).length = S.card := by
  have h := congrArg Multiset.card (coe_sortValues S)
  simpa using h

theorem mem_sortValues (S : Finset String) (x : String) :
    x ∈ sortValues S ↔ x ∈ S := by
  rw [← Finset.mem_val, ← coe_sortValues S]
  simp

theorem sorted_sortValues (S : Finset String) :
    List.Sorted strLe (sortValues S) := by
  rcases S with ⟨m, hm⟩
  induction m using Quotient.inductionOn with
  | h l => exact List.sorted_insertionSort _ _

/-! ### Characterization of the per-action scope walk -/

theorem resolveScopes_eq (pfx attr : String) (l : List String) (acc : Finset String) :
    resolveScopes pfx attr l acc =
      if l.any (isWildcardFor pfx attr) then .unrestricted
      else .restricted (acc ∪ matchedValues pfx attr l) := by
  induction l generalizing acc with
  | nil => simp [resolveScopes, matchedValues]
  | cons s rest ih =>
    simp only [resolveScopes, List.any_cons]
    cases hp : parseScope s with
    | none =>
      simp [isWildcardFor, exactValue, matchedValues, hp, ih]
    | some ps =>
      cases ps with
      | universal => simp [isWildcardFor, hp]
      | pfxWildcard p =>
        by_cases hpp : p = pfx
        · simp [isWildcardFor, hp, hpp]
        · simp [isWildcardFor, exactValue, matchedValues, hp, hpp, ih]
      | attrWildcard p a =>
        by_cases hpp : p = pfx ∧ a = attr
        · simp [isWildcardFor, hp, hpp]
        · have hw : isWildcardFor pfx attr s = false := by
            simp only [isWildcardFor, hp]
            rw [not_and_or] at hpp
            rcases hpp with h | h <;> simp [h]
          have he : exactValue pfx attr s = none := by
            simp [exactValue, hp]
          simp [hpp, hw, he, matchedValues, ih]
      | exact p a v =>
        have hw : isWildcardFor pfx attr s = false := by
          simp [isWildcardFor, hp]
        by_cases hpp : p = pfx ∧ a = attr
        · have he : exactValue pfx attr s = some v := by
            simp [exactValue, hp, hpp.1, hpp.2]
          simp [hpp, hw, he, matchedValues, ih, Finset.insert_union,
            Finset.union_insert]
        · have he : exactValue pfx attr s = none := by
            simp only [exactValue, hp]
            rw [not_and_or] at hpp
            rcases hpp with h | h <;> simp [h]
          simp [hpp, hw, he, matchedValues, ih]

/-! ### Intersection facts -/

theorem inter_empty_left (r : AuthResult) :
    inter (.restricted ∅) r = .restricted ∅ := by
  cases r <;> simp [inter]

theorem inter_empty_right (r : AuthResult) :
    inter r (.restricted ∅) = .restricted ∅ := by
  cases r <;> simp [inter]

theorem resolveAll_cons (perms : List (String × List String)) (pfx attr b : String)
    (rest : List String) :
    resolveAll perms pfx attr (b :: rest)
      = inter (resolveAction perms b pfx attr) (resolveAll perms pfx attr rest) :=
  rfl

theorem resolveAll_absent (perms : List (String × List String)) (pfx attr : String)
    (actions : List String) (a : String) (ha : a ∈ actions)
    (habs : perms.lookup a = none) :
    resolveAll perms pfx attr actions = .restricted ∅ := by
  induction actions with
  | nil => cases ha
  | cons b rest ih =>
    rw [resolveAll_cons]
    rcases List.mem_cons.mp ha with h | h
    · subst h
      have hr : resolveAction perms a pfx attr = .restricted ∅ := by
        simp [resolveAction, habs]
      rw [hr, inter_empty_left]
    · rw [ih h, inter_empty_right]

theorem resolveAll_congr (P1 P2 : List (String × List String)) (pfx attr : String)
    (actions : List String)
    (h : ∀ a, resolveAction P1 a pfx attr = resolveAction P2 a pfx attr) :
    resolveAll P1 pfx attr actions = resolveAll P2 pfx attr actions := by
  induction actions with
  | nil => rfl
  | cons b rest ih =>
    rw [resolveAll_cons, resolveAll_cons, h b, ih]

/-! ### Inversion of a successful Filter call -/

theorem Filter_ok_elim (al : List String) (perms : List (String × List String))
    (sqlID pfx attr : String) (actions : List String) (f : SQLFilter)
    (h : Filter al perms sqlID pfx attr actions = .ok f) :
    sqlID ∈ al ∧ actions ≠ [] ∧
      f = buildPredicate sqlID (resolveAll perms pfx attr actions) := by
  unfold Filter at h
  by_cases h1 : sqlID ∈ al
  · rw [if_pos h1] at h
    by_cases h2 : actions = []
    · rw [if_pos h2] at h
      cases h
    · rw [if_neg h2] at h
      simp only [Except.ok.injEq] at h
      exact ⟨h1, h2, h.symm⟩
  · rw [if_neg h1] at h
    cases h

/-! ### Claim theorems -/

/-- C1: if the requested SQL column identifier is not in the accept-list,
`Filter` returns the `invalidColumn` error — no usable predicate is
produced and the engine never substitutes a different column. -/
theorem invalidColumn_of_not_accepted (al : List String)
    (perms : List (String × List String)) (sqlID pfx attr : String)
    (actions : List String) (h : sqlID ∉ al) :
    Filter al perms sqlID pfx attr actions = .error .invalidColumn := by
  simp [Filter, h]

/-- C1 witness: the test's `other.id` column is rejected. -/
theorem invalidColumn_of_not_accepted_witness :
    "other.id" ∉ ["data_source.id"] ∧
      Filter ["data_source.id"]
          [("datasources:read",
            ["datasources:id:3", "datasources:id:7", "datasources:id:8"])]
          "other.id" "datasources" "id" ["datasources:read"]
        = .error .invalidColumn :=
  ⟨by decide, invalidColumn_of_not_accepted _ _ _ _ _ _ (by decide)⟩

/-- C2: on success the WHERE string is a function of the validated column
and the cardinality of the final restricted set only — two calls with the
same column whose restricted sets have equal cardinality produce identical
WHERE strings, and the data values appear only in the bound-argument list,
which lists the restricted set in its sorted order, one argument per
element. -/
theorem where_depends_only_on_column_and_card (al1 al2 : List String)
    (p1 p2 : List (String × List String)) (col pfx1 attr1 pfx2 attr2 : String)
    (a1 a2 : List String) (f1 f2 : SQLFilter) (S1 S2 : Finset String)
    (h1 : Filter al1 p1 col pfx1 attr1 a1 = .ok f1)
    (h2 : Filter al2 p2 col pfx2 attr2 a2 = .ok f2)
    (hr1 : resolveAll p1 pfx1 attr1 a1 = .restricted S1)
    (hr2 : resolveAll p2 pfx2 attr2 a2 = .restricted S2)
    (hcard : S1.card = S2.card) :
    f1.Where = f2.Where ∧ f1.Args = sortValues S1 ∧ f2.Args = sortValues S2 ∧
      f1.Args.length = S1.card := by
  obtain ⟨-, -, hf1⟩ := Filter_ok_elim _ _ _ _ _ _ _ h1
  obtain ⟨-, -, hf2⟩ := Filter_ok_elim _ _ _ _ _ _ _ h2
  subst hf1
  subst hf2
  rw [hr1, hr2]
  by_cases he1 : S1 = ∅
  · have he2 : S2 = ∅ := by
      rw [he1, Finset.card_empty] at hcard
      exact Finset.card_eq_zero.mp hcard.symm
    subst he1
    subst he2
    refine ⟨rfl, ?_, ?_, ?_⟩ <;>
      simp [buildPredicate, sortValues_empty, Finset.card_empty]
  · have he2 : S2 ≠ ∅ := by
      intro h
      rw [h, Finset.card_empty, Finset.card_eq_zero] at hcard
      exact he1 hcard
    have hb1 : buildPredicate col (.restricted S1)
        = ⟨" " ++ col ++ " IN (" ++ placeholders S1.card ++ ")", sortValues S1⟩ := by
      simp [buildPredicate, Finset.card_eq_zero, he1]
    have hb2 : buildPredicate col (.restricted S2)
        = ⟨" " ++ col ++ " IN (" ++ placeholders S2.card ++ ")", sortValues S2⟩ := by
      simp [buildPredicate, Finset.card_eq_zero, he2]
    rw [hb1, hb2]
    refine ⟨?_, rfl, rfl, ?_⟩
    · rw [hcard]
    · exact length_sortValues S1

/-- C2 witness: two different permission sets with two-element restricted
sets yield the same WHERE string, values only in the argument lists. -/
theorem where_depends_only_on_column_and_card_witness :
    Filter ["data_source.id"] [("datasources:read", ["datasources:id:3", "datasources:id:7"])]
        "data_source.id" "datasources" "id" ["datasources:read"]
      = .ok ⟨" data_source.id IN (?,?)", ["3", "7"]⟩ ∧
    Filter ["data_source.id"] [("datasources:read", ["datasources:id:8", "datasources:id:9"])]
        "data_source.id" "datasources" "id" ["datasources:read"]
      = .ok ⟨" data_source.id IN (?,?)", ["8", "9"]⟩ ∧
    resolveAll [("datasources:read", ["datasources:id:3", "datasources:id:7"])]
        "datasources" "id" ["datasources:read"]
      = .restricted (insert "7" (insert "3" ∅)) ∧
    resolveAll [("datasources:read", ["datasources:id:8", "datasources:id:9"])]
        "datasources" "id" ["datasources:read"]
      = .restricted (insert "9" (insert "8" ∅)) ∧
    (insert "7" (insert "3" (∅ : Finset String))).card
        = (insert "9" (insert "8" (∅ : Finset String))).card ∧
    ((⟨" data_source.id IN (?,?)", ["3", "7"]⟩ : SQLFilter).Where
        = (⟨" data_source.id IN (?,?)", ["8", "9"]⟩ : SQLFilter).Where ∧
      (⟨" data_source.id IN (?,?)", ["3", "7"]⟩ : SQLFilter).Args
        = sortValues (insert "7" (insert "3" ∅)) ∧
      (⟨" data_source.id IN (?,?)", ["8", "9"]⟩ : SQLFilter).Args
        = sortValues (insert "9" (insert "8" ∅)) ∧
      (⟨" data_source.id IN (?,?)", ["3", "7"]⟩ : SQLFilter).Args.length
        = (insert "7" (insert "3" (∅ : Finset String))).card) :=
  ⟨rfl, rfl, rfl, rfl, rfl,
    where_depends_only_on_column_and_card
      ["data_source.id"] ["data_source.id"]
      [("datasources:read", ["datasources:id:3", "datasources:id:7"])]
      [("datasources:read", ["datasources:id:8", "datasources:id:9"])]
      "data_source.id" "datasources" "id" "datasources" "id"
      ["datasources:read"] ["datasources:read"]
      ⟨" data_source.id IN (?,?)", ["3", "7"]⟩
      ⟨" data_source.id IN (?,?)", ["8", "9"]⟩
      (insert "7" (insert "3" ∅)) (insert "9" (insert "8" ∅))
      rfl rfl rfl rfl rfl⟩

/-- C3: an action granted the universal wildcard, a whole-prefix wildcard,
or a wildcard attribute/value scope resolves to `unrestricted`, whatever
other scopes it also holds. -/
theorem wildcard_grant_unrestricted (perms : List (String × List String))
    (action pfx attr : String) (scopes : List String)
    (hlook : perms.lookup action = some scopes)
    (hp : ':' ∉ pfx.data) (ha : ':' ∉ attr.data) (hpne : pfx ≠ "") (hane : attr ≠ "")
    (hw : "*" ∈ scopes ∨ (pfx ++ ":*") ∈ scopes ∨
      (pfx ++ ":" ++ attr ++ ":*") ∈ scopes) :
    resolveAction perms action pfx attr = .unrestricted := by
  have hany : scopes.any (isWildcardFor pfx attr) = true := by
    rcases hw with h | h | h
    · exact List.any_eq_true.mpr ⟨"*", h, by simp [isWildcardFor, parseScope_universal]⟩
    · exact List.any_eq_true.mpr
        ⟨_, h, by simp [isWildcardFor, parseScope_pfxWild pfx hp hpne]⟩
    · refine List.any_eq_true.mpr ⟨_, h, ?_⟩
      have h3 := parseScope_three pfx attr "*" hp ha (by decide) hpne hane (by decide)
      rw [if_pos rfl] at h3
      rw [append_colon_star (pfx ++ ":" ++ attr)]
      simp [isWildcardFor, h3]
  simp [resolveAction, hlook, resolveScopes_eq, hany]

/-- C3 witness: a whole-prefix wildcard next to an exact scope still gives
an unrestricted per-action result. -/
theorem wildcard_grant_unrestricted_witness :
    ([("datasources:read", ["datasources:id:3", "datasources:*"])].lookup
        "datasources:read" = some ["datasources:id:3", "datasources:*"]) ∧
    ("datasources" ++ ":*") ∈ ["datasources:id:3", "datasources:*"] ∧
      resolveAction [("datasources:read", ["datasources:id:3", "datasources:*"])]
        "datasources:read" "datasources" "id" = .unrestricted :=
  ⟨by decide, by decide,
    wildcard_grant_unrestricted
      [("datasources:read", ["datasources:id:3", "datasources:*"])]
      "datasources:read" "datasources" "id"
      ["datasources:id:3", "datasources:*"]
      (by decide) (by decide) (by decide) (by decide) (by decide)
      (Or.inr (Or.inl (by decide)))⟩

/-- C4: if some required action has no entry in the permission set, the
overall result is `restricted ∅` and the returned predicate is the
always-false clause with no arguments, whatever the other actions grant. -/
theorem missing_action_denies_all (al : List String)
    (perms : List (String × List String)) (sqlID pfx attr : String)
    (actions : List String) (a : String) (f : SQLFilter)
    (ha : a ∈ actions) (habs : perms.lookup a = none)
    (hok : Filter al perms sqlID pfx attr actions = .ok f) :
    resolveAll perms pfx attr actions = .restricted ∅ ∧
      f.Where = " 1 = 0" ∧ f.Args = [] := by
  have hres := resolveAll_absent perms pfx attr actions a ha habs
  obtain ⟨-, -, hf⟩ := Filter_ok_elim _ _ _ _ _ _ _ hok
  subst hf
  rw [hres]
  simp [buildPredicate]

/-- C4 witness: the test's empty permission set gives the zero-row
predicate. -/
theorem missing_action_denies_all_witness :
    "datasources:read" ∈ ["datasources:read"] ∧
    ([] : List (String × List String)).lookup "datasources:read" = none ∧
    Filter ["data_source.id"] [] "data_source.id" "datasources" "id"
        ["datasources:read"] = .ok ⟨" 1 = 0", []⟩ ∧
      resolveAll [] "datasources" "id" ["datasources:read"] = .restricted ∅ ∧
        (⟨" 1 = 0", []⟩ : SQLFilter).Where = " 1 = 0" ∧
        (⟨" 1 = 0", []⟩ : SQLFilter).Args = [] :=
  ⟨by decide, by decide, by decide,
    missing_action_denies_all ["data_source.id"] [] "data_source.id" "datasources"
      "id" ["datasources:read"] "datasources:read" ⟨" 1 = 0", []⟩
      (by decide) (by decide) (by decide)⟩

/-- C5: the cross-action fold combines per-action results pairwise with
`inter`, and `inter` satisfies the three intersection laws: unrestricted
is absorbed, and two restricted sets intersect as sets. -/
theorem intersection_fold_laws :
    (inter .unrestricted .unrestricted = .unrestricted) ∧
    (∀ S : Finset String, inter .unrestricted (.restricted S) = .restricted S) ∧
    (∀ S1 S2 : Finset String,
      inter (.restricted S1) (.restricted S2) = .restricted (S1 ∩ S2)) ∧
    (∀ (perms : List (String × List String)) (pfx attr a : String)
        (rest : List String),
      resolveAll perms pfx attr (a :: rest)
        = inter (resolveAction perms a pfx attr) (resolveAll perms pfx attr rest)) :=
  ⟨rfl, fun _ => rfl, fun _ _ => rfl, fun _ _ _ _ _ => rfl⟩

/-- C6: the Predicate Builder's three cases — unrestricted gives the
always-true clause with no arguments, the empty restricted set gives the
always-false clause with no arguments, and a non-empty restricted set
gives `col IN (placeholders)` with one bound argument per element, the
arguments listed in the deterministic sorted order. Total: no error is
possible at this stage. -/
theorem predicate_builder_spec (col : String) :
    buildPredicate col .unrestricted = ⟨" 1 = 1", []⟩ ∧
    buildPredicate col (.restricted ∅) = ⟨" 1 = 0", []⟩ ∧
    (∀ S : Finset String, S ≠ ∅ →
      buildPredicate col (.restricted S)
          = ⟨" " ++ col ++ " IN (" ++ placeholders S.card ++ ")", sortValues S⟩ ∧
        (sortValues S).length = S.card ∧
        List.Sorted strLe (sortValues S) ∧
        ∀ x, x ∈ sortValues S ↔ x ∈ S) := by
  refine ⟨rfl, by simp [buildPredicate], fun S hS =>
    ⟨?_, length_sortValues S, sorted_sortValues S, mem_sortValues S⟩⟩
  simp [buildPredicate, Finset.card_eq_zero, hS]

/-- C6 witness: instantiated at the two-element set of ids 3 and 7. -/
theorem predicate_builder_spec_witness :
    (insert "7" (insert "3" (∅ : Finset String))) ≠ ∅ ∧
      buildPredicate "data_source.id" (.restricted (insert "7" (insert "3" ∅)))
        = ⟨" " ++ "data_source.id" ++ " IN ("
              ++ placeholders (insert "7" (insert "3" (∅ : Finset String))).card ++ ")",
           sortValues (insert "7" (insert "3" ∅))⟩ :=
  ⟨Finset.insert_ne_empty _ _,
    ((predicate_builder_spec "data_source.id").2.2 (insert "7" (insert "3" ∅))
      (Finset.insert_ne_empty _ _)).1⟩

/-! ### Replacing one action's scope list without changing its resolution -/

theorem lookup_scopes_eq (ps1 ps2 : List (String × List String)) (act : String)
    (X1 X2 : List String) (pfx attr : String)
    (h : resolveScopes pfx attr X1 ∅ = resolveScopes pfx attr X2 ∅) (a : String) :
    resolveAction (ps1 ++ (act, X1) :: ps2) a pfx attr
      = resolveAction (ps1 ++ (act, X2) :: ps2) a pfx attr := by
  induction ps1 with
  | nil =>
    cases hae : a == act with
    | true => simp [resolveAction, List.lookup, hae, h]
    | false => simp [resolveAction, List.lookup, hae]
  | cons q qs ih =>
    rcases q with ⟨k, v⟩
    cases hak : a == k with
    | true => simp [resolveAction, List.lookup, hak]
    | false =>
      simp only [resolveAction, List.cons_append, List.lookup, hak] at ih ⊢
      exact ih

theorem Filter_replace_scopes (al : List String)
    (ps1 ps2 : List (String × List String)) (act : String) (X1 X2 : List String)
    (sqlID pfx attr : String) (actions : List String)
    (h : resolveScopes pfx attr X1 ∅ = resolveScopes pfx attr X2 ∅) :
    Filter al (ps1 ++ (act, X1) :: ps2) sqlID pfx attr actions
      = Filter al (ps1 ++ (act, X2) :: ps2) sqlID pfx attr actions := by
  unfold Filter
  rw [resolveAll_congr _ _ pfx attr actions
    (lookup_scopes_eq ps1 ps2 act X1 X2 pfx attr h)]

/-- C7: a malformed scope string mixed into an action's scope list — one
the parser rejects — never matches, never crashes the call, and leaves the
outcome exactly as if it were absent. -/
theorem malformed_scope_skipped (al : List String)
    (ps1 ps2 : List (String × List String)) (act m : String) (l1 l2 : List String)
    (sqlID pfx attr : String) (actions : List String)
    (hm : parseScope m = none) :
    Filter al (ps1 ++ (act, l1 ++ m :: l2) :: ps2) sqlID pfx attr actions
      = Filter al (ps1 ++ (act, l1 ++ l2) :: ps2) sqlID pfx attr actions := by
  apply Filter_replace_scopes
  rw [resolveScopes_eq, resolveScopes_eq]
  have hw : isWildcardFor pfx attr m = false := by
    simp [isWildcardFor, hm]
  have he : exactValue pfx attr m = none := by
    simp [exactValue, hm]
  simp [List.any_append, List.any_cons, hw, matchedValues,
    List.filterMap_append, List.filterMap_cons, he]

/-- C7 witness: the two-segment string `datasources:id` is unparsable and
dropping it leaves the call unchanged. -/
theorem malformed_scope_skipped_witness :
    parseScope "datasources:id" = none ∧
      Filter ["data_source.id"]
          [("datasources:read",
            ["datasources:id:3", "datasources:id", "datasources:id:7"])]
          "data_source.id" "datasources" "id" ["datasources:read"]
        = Filter ["data_source.id"]
            [("datasources:read", ["datasources:id:3", "datasources:id:7"])]
            "data_source.id" "datasources" "id" ["datasources:read"] :=
  ⟨by decide,
    malformed_scope_skipped ["data_source.id"] [] [] "datasources:read"
      "datasources:id" ["datasources:id:3"] ["datasources:id:7"]
      "data_source.id" "datasources" "id" ["datasources:read"] (by decide)⟩

/-- C8: repeating an identical scope value in an action's scope list never
changes the output of `Filter`: the restricted set is de-duplicated and a
repeated wildcard short-circuits at its first occurrence. -/
theorem duplicate_scope_no_effect (al : List String)
    (ps1 ps2 : List (String × List String)) (act s : String)
    (l1 l2 l3 : List String) (sqlID pfx attr : String) (actions : List String) :
    Filter al (ps1 ++ (act, l1 ++ s :: (l2 ++ s :: l3)) :: ps2) sqlID pfx attr actions
      = Filter al (ps1 ++ (act, l1 ++ s :: (l2 ++ l3)) :: ps2) sqlID pfx attr actions := by
  apply Filter_replace_scopes
  rw [resolveScopes_eq, resolveScopes_eq]
  have hany : (l1 ++ s :: (l2 ++ s :: l3)).any (isWildcardFor pfx attr)
      = (l1 ++ s :: (l2 ++ l3)).any (isWildcardFor pfx attr) := by
    simp only [List.any_append, List.any_cons]
    cases isWildcardFor pfx attr s <;> simp
  have hset : matchedValues pfx attr (l1 ++ s :: (l2 ++ s :: l3))
      = matchedValues pfx attr (l1 ++ s :: (l2 ++ l3)) := by
    unfold matchedValues
    apply Finset.ext
    intro x
    simp only [List.mem_toFinset, List.mem_filterMap, List.mem_append,
      List.mem_cons]
    constructor
    · rintro ⟨y, hy, hee⟩
      exact ⟨y, by tauto, hee⟩
    · rintro ⟨y, hy, hee⟩
      exact ⟨y, by tauto, hee⟩
  rw [hany, hset]

/-- C9: with an empty list of required actions, `Filter` fails with an
explicit error and never returns a predicate — in particular it never
silently authorizes everything. -/
theorem zero_actions_explicit_error (al : List String)
    (perms : List (String × List String)) (sqlID pfx attr : String) :
    (∃ e, Filter al perms sqlID pfx attr [] = .error e) ∧
      ∀ f, Filter al perms sqlID pfx attr [] ≠ .ok f := by
  by_cases h : sqlID ∈ al
  · refine ⟨⟨.emptyActions, by simp [Filter, h]⟩, fun f hf => ?_⟩
    simp [Filter, h] at hf
  · refine ⟨⟨.invalidColumn, by simp [Filter, h]⟩, fun f hf => ?_⟩
    simp [Filter, h] at hf

/-- C10: the wildcard marker counts only as a whole segment — a trailing
segment that merely contains `*` (such as `1*`) parses as an exact value
granting no wildcard; with `datasources:id:1*` as the only grant the call
succeeds and the predicate's argument matches none of the seeded ids. -/
theorem star_only_as_whole_segment :
    (∀ pfx attr p a v : String, ':' ∉ p.data → ':' ∉ a.data → ':' ∉ v.data →
      p ≠ "" → a ≠ "" → v ≠ "" → v ≠ "*" →
      parseScope (p ++ ":" ++ a ++ ":" ++ v) = some (.exact p a v) ∧
        isWildcardFor pfx attr (p ++ ":" ++ a ++ ":" ++ v) = false) ∧
    Filter ["data_source.id"] [("datasources:read", ["datasources:id:1*"])]
        "data_source.id" "datasources" "id" ["datasources:read"]
      = .ok ⟨" data_source.id IN (?)", ["1*"]⟩ ∧
    ∀ x ∈ dsSeededIds, x ∉ (⟨" data_source.id IN (?)", ["1*"]⟩ : SQLFilter).Args := by
  refine ⟨?_, rfl, by decide⟩
  intro pfx attr p a v hp ha hv hpne hane hvne hvstar
  have h3 := parseScope_three p a v hp ha hv hpne hane hvne
  rw [if_neg hvstar] at h3
  exact ⟨h3, by simp [isWildcardFor, h3]⟩

/-- C10 witness: instantiated at `datasources:id:1*`. -/
theorem star_only_as_whole_segment_witness :
    (':' ∉ ("datasources" : String).data) ∧ ("1*" : String) ≠ "*" ∧
      parseScope ("datasources" ++ ":" ++ "id" ++ ":" ++ "1*")
          = some (.exact "datasources" "id" "1*") ∧
        isWildcardFor "datasources" "id"
          ("datasources" ++ ":" ++ "id" ++ ":" ++ "1*") = false :=
  ⟨by decide, by decide,
    star_only_as_whole_segment.1 "datasources" "id" "datasources" "id" "1*"
      (by decide) (by decide) (by decide) (by decide) (by decide) (by decide)
      (by decide)⟩

end AccessControl
